import Mathlib

/-!
Shallow embedding of the bettershutils repository (bettershutils/bettershutils.py).

The module wraps OS filesystem primitives with two decorators:
a positional-argument-count validator (require_args) and a path
expansion / glob resolution wrapper (expand_paths), plus the file
operations mv, cp, rm, ls, mkdir, pwd and the current_directory
context manager.

Paths are strings.  The string functions from the Python standard
library that the source calls (posixpath.expanduser, posixpath.join,
posixpath.normpath, posixpath.abspath, posixpath.basename) are embedded
here on character lists, faithful to their CPython definitions; the
filesystem itself (an external collaborator in the spec) is modelled as
a finite set of directory paths and file paths together with the
process working directory.
-/

set_option autoImplicit false
set_option maxRecDepth 4000

namespace Bettershutils

/-- Split a character list on the slash separator, Python str.split on the
separator character.  An empty input yields one empty component. -/
def splitSlash : List Char → List (List Char)
  | [] => [[]]
  | c :: rest =>
    if c = '/' then [] :: splitSlash rest
    else
      match splitSlash rest with
      | [] => [[c]]
      | h :: t => (c :: h) :: t

/-- Join components with single slashes, Python sep.join(comps). -/
def interSlash : List (List Char) → List Char
  | [] => []
  | [c] => c
  | c :: rest => c ++ '/' :: interSlash rest

/-- Whether a path is absolute, posixpath.isabs: starts with a slash. -/
def isAbsL (p : List Char) : Bool :=
  p.head? == some '/'

/-- Number of retained leading slashes in posixpath.normpath: one slash
normally, two when the path starts with exactly two slashes (POSIX allows
an implementation-defined meaning for a double leading slash). -/
def initialSlashes (p : List Char) : Nat :=
  if isAbsL p then
    if isAbsL (p.drop 1) ∧ ¬ isAbsL (p.drop 2) then 2 else 1
  else 0

/-- One step of the component loop of posixpath.normpath.  The accumulator
holds the components appended so far in reverse order (head = the most
recently appended component), mirroring append/pop on the Python list tail. -/
def normStep (abs : Bool) (acc : List (List Char)) (comp : List Char) : List (List Char) :=
  if comp = [] ∨ comp = ['.'] then acc
  else if comp ≠ ['.', '.'] ∨ (abs = false ∧ acc = []) ∨ acc.head? = some ['.', '.'] then
    comp :: acc
  else
    match acc with
    | [] => []
    | _ :: rest => rest

/-- Component loop of posixpath.normpath over all components. -/
def normAcc (abs : Bool) (acc : List (List Char)) (comps : List (List Char)) :
    List (List Char) :=
  comps.foldl (normStep abs) acc

/-- Final assembly of posixpath.normpath: leading slashes plus the joined
components, or a dot when that is empty. -/
def renderN (slashes : Nat) (comps : List (List Char)) : List Char :=
  let s := List.replicate slashes '/' ++ interSlash comps
  if s = [] then ['.'] else s

/-- posixpath.normpath on a character list. -/
def normpathL (p : List Char) : List Char :=
  if p = [] then ['.']
  else
    renderN (initialSlashes p) ((normAcc (initialSlashes p != 0) [] (splitSlash p)).reverse)

/-- posixpath.join restricted to two operands, as used by abspath. -/
def joinL (a b : List Char) : List Char :=
  if isAbsL b then b
  else if a = [] ∨ a.getLast? = some '/' then a ++ b
  else a ++ '/' :: b

/-- Remove trailing slashes, Python str.rstrip on the separator. -/
def rstripSlash (p : List Char) : List Char :=
  (p.reverse.dropWhile (fun c => c = '/')).reverse

/-- posixpath.expanduser, parameterised by the value of the HOME environment
variable and by the password database as an association list from login name
to home directory.  A leading tilde alone uses HOME; a tilde followed by a
login name uses the database entry, and an unknown name leaves the path
unchanged, as in the library. -/
def expanduserL (home : List Char) (db : List (List Char × List Char))
    (p : List Char) : List Char :=
  if p.head? = some '~' then
    let i := 1 + (p.drop 1).findIdx (fun c => c = '/')
    let userhome? :=
      if i = 1 then some home
      else
        match db.find? (fun u => u.1 == (p.take i).drop 1) with
        | some u => some u.2
        | none => none
    match userhome? with
    | none => p
    | some uh =>
      let r := rstripSlash uh ++ p.drop i
      if r = [] then ['/'] else r
  else p

/-- posixpath.abspath: join onto the working directory when relative, then
normalise. -/
def abspathL (cwd p : List Char) : List Char :=
  if isAbsL p then normpathL p else normpathL (joinL cwd p)

/-- The expand_path function of the source:
path.abspath(path.expanduser(input)), parameterised by the working
directory and the user environment. -/
def expand_pathL (cwd home : List Char) (db : List (List Char × List Char))
    (p : List Char) : List Char :=
  abspathL cwd (expanduserL home db p)

/-- String-level expand_path. -/
def expand_path (cwd home : String) (db : List (String × String)) (p : String) : String :=
  ⟨expand_pathL cwd.data home.data (db.map (fun u => (u.1.data, u.2.data))) p.data⟩

/-!
The filesystem model.  The spec treats the OS filesystem as an external
collaborator; it is modelled as a finite set of directory paths and file
paths plus the process working directory.  Lookups resolve their argument
against the working directory the way the kernel resolves a relative path,
which coincides with abspath for symlink-free trees.
-/

/-- Error taxonomy of the spec, with the concrete Python exception each
constructor models: arityError is the TypeError of require_args,
invalidTarget the ValueError of mv and cp, isADirectory the OSError of rm
with the is-a-directory message (and the IsADirectoryError of os.unlink),
destinationExists the FileExistsError of cp (and the destination-exists
failure of shutil.move), fileNotFound the FileNotFoundError of the OS
layer, indexError the IndexError of indexing an empty tuple. -/
inductive Err where
  | arityError
  | invalidTarget
  | isADirectory
  | destinationExists
  | fileNotFound
  | indexError
deriving DecidableEq

/-- posixpath.basename: the part after the last slash. -/
def basenameL (p : List Char) : List Char :=
  (p.reverse.takeWhile (fun c => c ≠ '/')).reverse

def basenameS (p : String) : String :=
  ⟨basenameL p.data⟩

/-- The directory path with exactly one trailing slash appended unless it
already ends in one (the root), used for child and subtree tests. -/
def dirSlashL (d : List Char) : List Char :=
  if d.getLast? = some '/' then d else d ++ ['/']

/-- Strip a leading run: some rest when l = pre ++ rest. -/
def stripHead : List Char → List Char → Option (List Char)
  | [], l => some l
  | _ :: _, [] => none
  | a :: pre, b :: l => if a = b then stripHead pre l else none

/-- Name of p as an immediate child of directory d, when it is one. -/
def childNameL (d p : List Char) : Option (List Char) :=
  match stripHead (dirSlashL d) p with
  | none => none
  | some rest => if rest ≠ [] ∧ '/' ∉ rest then some rest else none

/-- Whether p lies in the subtree rooted at d (d itself included). -/
def underL (d p : List Char) : Bool :=
  p == d || (stripHead (dirSlashL d) p).isSome

/-- Rewrite the subtree prefix src of p to dst, for move and copytree. -/
def rewriteL (src dst p : List Char) : List Char :=
  if p == src then dst
  else
    match stripHead (dirSlashL src) p with
    | some rest => dirSlashL dst ++ rest
    | none => p

/-- posixpath.join of a directory and a slash-free entry name. -/
def joinNameL (d name : List Char) : List Char :=
  dirSlashL d ++ name

def joinNameS (d name : String) : String := ⟨joinNameL d.data name.data⟩
def childNameS (d p : String) : Option String := (childNameL d.data p.data).map (⟨·⟩)
def underS (d p : String) : Bool := underL d.data p.data
def rewriteS (src dst p : String) : String := ⟨rewriteL src.data dst.data p.data⟩
def abspathS (cwd p : String) : String := ⟨abspathL cwd.data p.data⟩

/-- The filesystem state: working directory plus the sets of directory and
file paths, stored resolved (absolute, normalised). -/
structure FS where
  cwd : String
  dirs : List String
  files : List String
deriving DecidableEq

namespace FS

/-- Resolution of a path argument against the working directory, the way
the OS resolves the strings the operations hand to it. -/
def resolve (fs : FS) (p : String) : String := abspathS fs.cwd p

/-- os.path.isdir. -/
def isdir (fs : FS) (p : String) : Bool := fs.dirs.contains (fs.resolve p)

/-- os.path.isfile. -/
def isfile (fs : FS) (p : String) : Bool := fs.files.contains (fs.resolve p)

/-- os.path.exists. -/
def exists_path (fs : FS) (p : String) : Bool := fs.isdir p || fs.isfile p

/-- glob.has_magic: the pattern contains a wildcard character. -/
def hasMagic (p : String) : Bool :=
  p.data.any (fun c => c == '*' || c == '?' || c == '[')

/-- Wildcard matcher for the magic branch of glob, supporting star and
question mark (a model of fnmatch; character classes are treated literally,
no claim exercises them). -/
def matchWild : List Char → List Char → Bool
  | [], s => s.isEmpty
  | '*' :: ps, [] => matchWild ps []
  | '*' :: ps, c :: s => matchWild ps (c :: s) || matchWild ('*' :: ps) s
  | '?' :: ps, _ :: s => matchWild ps s
  | _ :: _, [] => false
  | p :: ps, c :: s => p == c && matchWild ps s
termination_by p s => (p.length, s.length)

/-- glob.glob on the model.  A pattern without magic characters matches
itself exactly when it exists on the filesystem, and nothing otherwise;
glob never raises and a miss yields the empty list. -/
def glob (fs : FS) (p : String) : List String :=
  if hasMagic p then
    (fs.dirs ++ fs.files).filter (fun q => matchWild p.data q.data)
  else if fs.exists_path p then [p] else []

/-- os.listdir: names of the immediate entries of a directory. -/
def listdir (fs : FS) (d : String) : List String :=
  (fs.dirs ++ fs.files).filterMap (childNameS (fs.resolve d))

/-- os.unlink: removes a file; a directory or a missing path is an error. -/
def unlink (fs : FS) (p : String) : Option Err × FS :=
  if fs.isdir p then (some .isADirectory, fs)
  else if fs.isfile p then
    (none, { fs with files := fs.files.filter (fun q => q != fs.resolve p) })
  else (some .fileNotFound, fs)

/-- shutil.rmtree: removes the whole subtree.  Suppression of per-entry OS
errors under its ignore_errors flag concerns OS failures outside this
model, so the model removal is total. -/
def rmtree (fs : FS) (d : String) : FS :=
  { fs with
    dirs := fs.dirs.filter (fun q => !(underS (fs.resolve d) q)),
    files := fs.files.filter (fun q => !(underS (fs.resolve d) q)) }

/-- shutil.move: into a directory destination the source lands under its
basename and an existing landing path is an error; otherwise the source is
renamed to exactly the destination path. -/
def move (fs : FS) (src dst : String) : Option Err × FS :=
  let rsrc := fs.resolve src
  let rdst0 := fs.resolve dst
  let into := fs.dirs.contains rdst0
  let rdst := if into then joinNameS rdst0 (basenameS rsrc) else rdst0
  if into ∧ (fs.dirs.contains rdst ∨ fs.files.contains rdst) then
    (some .destinationExists, fs)
  else if ¬ (fs.dirs.contains rsrc ∨ fs.files.contains rsrc) then
    (some .fileNotFound, fs)
  else
    (none, { fs with
      dirs := fs.dirs.map (rewriteS rsrc rdst),
      files := fs.files.map (rewriteS rsrc rdst) })

/-- shutil.copy of a file: into a directory destination by basename,
otherwise to exactly the destination path. -/
def copy (fs : FS) (src dst : String) : Option Err × FS :=
  if fs.isdir src then (some .isADirectory, fs)
  else if ¬ fs.isfile src then (some .fileNotFound, fs)
  else
    let rdst := if fs.isdir dst then joinNameS (fs.resolve dst) (basenameS (fs.resolve src))
      else fs.resolve dst
    if fs.dirs.contains rdst then (some .isADirectory, fs)
    else (none, { fs with
      files := if fs.files.contains rdst then fs.files else fs.files ++ [rdst] })

/-- shutil.copytree: copies the whole subtree to a fresh destination.  The
callers in the source guard the existing-destination error case. -/
def copytree (fs : FS) (src dst : String) : FS :=
  let rsrc := fs.resolve src
  let rdst := fs.resolve dst
  { fs with
    dirs := fs.dirs ++ (fs.dirs.filter (fun q => underS rsrc q)).map (rewriteS rsrc rdst),
    files := fs.files ++ (fs.files.filter (fun q => underS rsrc q)).map (rewriteS rsrc rdst) }

end FS

/-!
The two decorators.  Python decorators listed top to bottom apply outside
in, so require_args sees the raw arguments and expand_paths runs after it,
just before the operation body.
-/

/-- Argument-count check of require_args: the max bound is tested first,
then the min bound, each only when set; None means no bound. -/
def require_args_check (mn mx : Option Nat) (n : Nat) : Option Err :=
  if mx.any (fun m => m < n) then some .arityError
  else if mn.any (fun m => n < m) then some .arityError
  else none

/-- The wrapped callable produced by require_args: on acceptance the
positional and keyword arguments are forwarded verbatim to the wrapped
function and its result returned unmodified. -/
def require_args_wrap {α β κ : Type} (mn mx : Option Nat) (f : List α → κ → β)
    (args : List α) (kwargs : κ) : Except Err β :=
  match require_args_check mn mx args.length with
  | some e => .error e
  | none => .ok (f args kwargs)

/-- Message selection helper of the source, _get_num_args_text. -/
def _get_num_args_text (mn mx : Option Nat) : String :=
  match mn, mx with
  | some _, some _ => "min to max arguments"
  | some m, none => if 1 < m then "at least min arguments" else "at least min argument"
  | none, some _ => "no more than max arguments"
  | none, none => "any number of arguments"

/-- Positional-argument transformation of the expand_paths decorator: every
positional argument is run through expand_path, then, when do_glob is set,
each expanded argument is replaced by its glob matches, concatenated in
argument order.  Keyword arguments of the wrapped operations are plain
booleans forwarded unchanged (the keyword-expansion list of the decorator
is empty for rm and cp and unused by ls). -/
def expand_paths_apply (fs : FS) (home : String) (db : List (String × String))
    ( do_glob : Bool) (fargs : List String) : List String :=
  let fargs := fargs.map (expand_path fs.cwd home db)
  if do_glob then fargs.foldl (fun acc a => acc ++ fs.glob a) [] else fargs

/-!
The operations.  Each returns the pair of an optional error (the raised
exception) and the filesystem state at the moment of return or raise, so
that partial effects of a failed batch stay observable.
-/

/-- Body of mv after the require_args(min 2) wrapper; mv applies no path
expansion.  Indexing an empty tuple models as indexError. -/
def mv_into (fs : FS) (sources : List String) (target : String) : Option Err × FS :=
  match sources with
  | [] => (none, fs)
  | s :: rest =>
    match fs.move s target with
    | (some e, fs2) => (some e, fs2)
    | (none, fs2) => mv_into fs2 rest target

def mv_body (fs : FS) (args : List String) : Option Err × FS :=
  match args.getLast? with
  | none => (some .indexError, fs)
  | some target =>
    if ¬ fs.isdir target ∧ 1 < args.dropLast.length then (some .invalidTarget, fs)
    else if fs.isdir target then mv_into fs args.dropLast target
    else
      match args.dropLast.head? with
      | none => (some .indexError, fs)
      | some s => fs.move s target

/-- mv with its require_args(min 2) wrapper. -/
def mv (fs : FS) (args : List String) : Option Err × FS :=
  match require_args_check (some 2) none args.length with
  | some e => (some e, fs)
  | none => mv_body fs args

/-- Body of rm: the loop over the already expanded and glob-resolved
arguments.  A raise aborts the loop with the state reached so far; the
print of the is-a-directory message under ignore_errors only writes to
standard output and the loop continues. -/
def rm_body (fs : FS) (args : List String) (recursive ignore_errors : Bool) :
    Option Err × FS :=
  match args with
  | [] => (none, fs)
  | arg :: rest =>
    if ¬ fs.exists_path arg ∧ ignore_errors then rm_body fs rest recursive ignore_errors
    else if fs.isdir arg then
      if ¬ recursive then
        if ignore_errors then rm_body fs rest recursive ignore_errors
        else (some .isADirectory, fs)
      else rm_body (fs.rmtree arg) rest recursive ignore_errors
    else
      match fs.unlink arg with
      | (some e, fs2) => (some e, fs2)
      | (none, fs2) => rm_body fs2 rest recursive ignore_errors

/-- rm with its decorators: require_args(min 1) outside, expand_paths()
with glob inside. -/
def rm (fs : FS) (home : String) (db : List (String × String)) (args : List String)
    (recursive ignore_errors : Bool) : Option Err × FS :=
  match require_args_check (some 1) none args.length with
  | some e => (some e, fs)
  | none => rm_body fs (expand_paths_apply fs home db true args) recursive ignore_errors

/-- Loop of cp for a directory target: directory sources are copied as
trees under their basename only when recursive is set and skipped with a
printed notice otherwise; file sources are copied into the target. -/
def cp_into (fs : FS) (sources : List String) (target : String) (recursive : Bool) :
    Option Err × FS :=
  match sources with
  | [] => (none, fs)
  | source :: rest =>
    if fs.isdir source then
      if recursive then
        cp_into (fs.copytree source (joinNameS target (basenameS source))) rest target recursive
      else cp_into fs rest target recursive
    else
      match fs.copy source target with
      | (some e, fs2) => (some e, fs2)
      | (none, fs2) => cp_into fs2 rest target recursive

/-- Body of cp after expansion. -/
def cp_body (fs : FS) (args : List String) (recursive : Bool) : Option Err × FS :=
  match args.getLast? with
  | none => (some .indexError, fs)
  | some target =>
    if ¬ fs.isdir target ∧ 1 < args.dropLast.length then (some .invalidTarget, fs)
    else if fs.isdir target then cp_into fs args.dropLast target recursive
    else
      match args.dropLast.head? with
      | none => (some .indexError, fs)
      | some source =>
        if fs.isdir source ∧ fs.exists_path target then (some .destinationExists, fs)
        else if fs.isdir source then (none, fs.copytree source target)
        else fs.copy source target

/-- cp with its decorators: require_args(min 2) outside, expand_paths()
with glob inside. -/
def cp (fs : FS) (home : String) (db : List (String × String)) (args : List String)
    (recursive : Bool) : Option Err × FS :=
  match require_args_check (some 2) none args.length with
  | some e => (some e, fs)
  | none => cp_body fs (expand_paths_apply fs home db true args) recursive

/-- Return shape of ls: the dictionary, or the single result sequence when
the dictionary has exactly one key. -/
inductive LsResult where
  | seq (xs : List String)
  | dict (entries : List (String × List String))
deriving DecidableEq

/-- Assignment into the insertion-ordered results dictionary. -/
def dinsert (res : List (String × List String)) (k : String) (v : List String) :
    List (String × List String) :=
  if res.any (fun kv => kv.1 == k) then
    res.map (fun kv => if kv.1 == k then (k, v) else kv)
  else res ++ [(k, v)]

/-- Per-argument result of ls: directory listing, the path itself for an
existing file, and the glob fallback for anything else. -/
def ls_entry (fs : FS) (arg : String) : List String :=
  if fs.isdir arg then fs.listdir arg
  else if fs.exists_path arg then [arg]
  else fs.glob arg

def ls_results (fs : FS) (args : List String) : List (String × List String) :=
  args.foldl (fun res arg => dinsert res arg (ls_entry fs arg)) []

/-- Body of ls after expansion: defaults to the current directory when no
argument survives, builds the dictionary, and collapses a one-key
dictionary to its single value. -/
def ls_body (fs : FS) (args0 : List String) : LsResult :=
  match ls_results fs (if args0 = [] then ["."] else args0) with
  | [kv] => .seq kv.2
  | results => .dict results

/-- ls with its expand_paths(path, do_glob False) decorator: positional
arguments are expanded but not glob-resolved. -/
def ls (fs : FS) (home : String) (db : List (String × String)) (args : List String) :
    LsResult :=
  ls_body fs (expand_paths_apply fs home db false args)

/-- The current_directory context manager: expand the argument, record the
old working directory, chdir to the new one, run the body, and chdir back.
The generator yields outside any try block, so when the body raises, the
restoring chdir after the yield never runs and the exception propagates
with the working directory left as the body left it. -/
def current_directory_run (fs : FS) (home : String) (db : List (String × String))
    (new_dir : String) (body : FS → Option Err × FS) : Option Err × FS :=
  let nd := expand_path fs.cwd home db new_dir
  let cur_dir := fs.cwd
  if ¬ fs.isdir nd then (some .fileNotFound, fs)
  else
    match body { fs with cwd := nd } with
    | (none, fs2) =>
      if fs2.isdir cur_dir then (none, { fs2 with cwd := cur_dir })
      else (some .fileNotFound, fs2)
    | (some e, fs2) => (some e, fs2)

/-- Clean component in normpath output: nonempty, not a dot, not a double
dot, free of separators. -/
def GoodComp (c : List Char) : Prop :=
  c ≠ [] ∧ c ≠ ['.'] ∧ c ≠ ['.', '.'] ∧ '/' ∉ c

/-- Normal form of an absolute normalised path: one or two leading slashes
followed by slash-joined clean components. -/
def NormedAbs (q : List Char) : Prop :=
  ∃ s out, (s = 1 ∨ s = 2) ∧ (∀ c ∈ out, GoodComp c) ∧
    q = List.replicate s '/' ++ interSlash out

/-- Keys inserted so far, in insertion order and without duplicates. -/
def dedupKeys (args : List String) : List String :=
  args.foldl (fun acc a => if acc.any (fun x => x == a) then acc else acc ++ [a]) []

/-- The argument list the ls body iterates over: the expanded positional
arguments, or the current-directory default when none remain. -/
def lsArgs (fs : FS) (home : String) (db : List (String × String))
    (args : List String) : List String :=
  if expand_paths_apply fs home db false args = [] then ["."]
  else expand_paths_apply fs home db false args

example : expand_path "/a" "/home/u" [] "b" = "/a/b" := by decide
example : expand_path "/a" "/home/u" [] "/x/./y/../z" = "/x/z" := by decide
example : expand_path "/a" "/home/u" [] "~" = "/home/u" := by decide
example : expand_path "/a" "/home/u" [] "~/c" = "/home/u/c" := by decide
example : expand_path "/a" "/home/u" [("v", "/home/v")] "~v/c" = "/home/v/c" := by decide
example : expand_path "/a" "/home/u" [] "~w/c" = "/a/~w/c" := by decide
example : expand_path "/a/b" "/h" [] "" = "/a/b" := by decide
example : expand_path "/a" "/h" [] "//x" = "//x" := by decide

/-!
Lemmas towards the idempotence of expand_path (claim C5).  The route:
the output of abspathL with an absolute working directory is always in
a normal form (leading slashes followed by clean components), expanduserL
does not touch an absolute path, and normpathL fixes every path already
in that normal form.
-/

theorem splitSlash_ne_nil (p : List Char) : splitSlash p ≠ [] := by
  cases p with
  | nil => simp [splitSlash]
  | cons c rest =>
    simp only [splitSlash]
    split
    · simp
    · cases h : splitSlash rest <;> simp

theorem mem_splitSlash_no_slash (p : List Char) : ∀ c ∈ splitSlash p, '/' ∉ c := by
  induction p with
  | nil =>
    intro c hc
    simp only [splitSlash, List.mem_singleton] at hc
    simp [hc]
  | cons a rest ih =>
    intro c hc
    by_cases ha : a = '/'
    · subst ha
      simp only [splitSlash, if_pos rfl] at hc
      rcases List.mem_cons.mp hc with h | h
      · simp [h]
      · exact ih c h
    · simp only [splitSlash, if_neg ha] at hc
      cases h : splitSlash rest with
      | nil => exact absurd h (splitSlash_ne_nil rest)
      | cons h1 t1 =>
        rw [h] at hc
        rcases List.mem_cons.mp hc with hx | hx
        · subst hx
          intro hm
          rcases List.mem_cons.mp hm with h2 | h2
          · exact ha h2.symm
          · exact ih h1 (h ▸ List.mem_cons_self h1 t1) h2
        · exact ih c (h ▸ List.mem_cons_of_mem h1 hx)

theorem splitSlash_no_sep (c : List Char) (h : '/' ∉ c) : splitSlash c = [c] := by
  induction c with
  | nil => rfl
  | cons a r ih =>
    have ha : ¬ a = '/' := fun e => h (e ▸ List.mem_cons_self a r)
    have hr : '/' ∉ r := fun hm => h (List.mem_cons_of_mem a hm)
    simp [splitSlash, if_neg ha, ih hr]

theorem splitSlash_slash (p : List Char) : splitSlash ('/' :: p) = [] :: splitSlash p := by
  simp [splitSlash]

theorem splitSlash_append (c r : List Char) (h : '/' ∉ c) :
    splitSlash (c ++ '/' :: r) = c :: splitSlash r := by
  induction c with
  | nil => simp [splitSlash_slash]
  | cons a c2 ih =>
    have ha : ¬ a = '/' := fun e => h (e ▸ List.mem_cons_self a c2)
    have hc2 : '/' ∉ c2 := fun hm => h (List.mem_cons_of_mem a hm)
    simp [splitSlash, if_neg ha, ih hc2]

theorem splitSlash_interSlash (out : List (List Char)) (h : ∀ c ∈ out, '/' ∉ c) :
    splitSlash (interSlash out) = out ∨ out = [] := by
  induction out with
  | nil => exact Or.inr rfl
  | cons c rest ih =>
    left
    cases rest with
    | nil => simpa [interSlash] using splitSlash_no_sep c (h c (by simp))
    | cons d rest2 =>
      have hrec := ih (fun x hx => h x (List.mem_cons_of_mem c hx))
      rcases hrec with hrec | hrec
      · simp only [interSlash]
        rw [splitSlash_append c _ (h c (by simp)), hrec]
      · exact absurd hrec (by simp)

theorem normStep_empty (abs : Bool) (acc : List (List Char)) : normStep abs acc [] = acc := by
  simp [normStep]

theorem normStep_good {x : List Char} {acc : List (List Char)}
    (hx : '/' ∉ x) (hacc : ∀ c ∈ acc, GoodComp c) :
    ∀ c ∈ normStep true acc x, GoodComp c := by
  unfold normStep
  split
  · exact hacc
  next hskip =>
    push_neg at hskip
    split
    next happ =>
      have hxdd : x ≠ ['.', '.'] := by
        rcases happ with h | h | h
        · exact h
        · exact absurd h.1 (by simp)
        · intro _
          cases hhd : acc.head? with
          | none => rw [hhd] at h; exact Option.noConfusion h
          | some y =>
            rw [hhd] at h
            have hy : y ∈ acc := List.mem_of_mem_head? (hhd ▸ rfl)
            have := (hacc y hy).2.2.1
            exact this (Option.some.injEq _ _ ▸ h ▸ rfl)
      intro c hc
      rcases List.mem_cons.mp hc with rfl | hc
      · exact ⟨hskip.1, hskip.2, hxdd, hx⟩
      · exact hacc c hc
    next =>
      cases acc with
      | nil => intro c hc; simp at hc
      | cons a rest => intro c hc; exact hacc c (List.mem_cons_of_mem a hc)

theorem normAcc_good (comps : List (List Char)) :
    ∀ acc, (∀ c ∈ comps, '/' ∉ c) → (∀ c ∈ acc, GoodComp c) →
      ∀ c ∈ normAcc true acc comps, GoodComp c := by
  induction comps with
  | nil => intro acc _ hacc c hc; exact hacc c hc
  | cons x xs ih =>
    intro acc hcomps hacc c hc
    rw [normAcc, List.foldl_cons] at hc
    exact ih (normStep true acc x)
      (fun y hy => hcomps y (List.mem_cons_of_mem x hy))
      (normStep_good (hcomps x (List.mem_cons_self x xs)) hacc) c hc

theorem normAcc_all_good (comps : List (List Char)) :
    ∀ (abs : Bool) (acc : List (List Char)), (∀ c ∈ comps, GoodComp c) →
      normAcc abs acc comps = comps.reverse ++ acc := by
  induction comps with
  | nil => intro abs acc _; simp [normAcc]
  | cons x xs ih =>
    intro abs acc hg
    have hx := hg x (List.mem_cons_self x xs)
    have hstep : normStep abs acc x = x :: acc := by
      unfold normStep
      rw [if_neg (by rw [not_or]; exact ⟨hx.1, hx.2.1⟩), if_pos (Or.inl hx.2.2.1)]
    rw [normAcc, List.foldl_cons, hstep, ← normAcc,
      ih abs (x :: acc) (fun y hy => hg y (List.mem_cons_of_mem x hy))]
    simp

theorem normAcc_skip_empty (abs : Bool) (acc : List (List Char)) (k : Nat)
    (comps : List (List Char)) :
    normAcc abs acc (List.replicate k [] ++ comps) = normAcc abs acc comps := by
  induction k with
  | zero => simp
  | succ n ihn =>
    rw [List.replicate_succ, List.cons_append, normAcc, List.foldl_cons,
      normStep_empty, ← normAcc, ihn]

theorem isAbsL_append (a b : List Char) (h : isAbsL a = true) : isAbsL (a ++ b) = true := by
  have hne : a ≠ [] := by
    intro he
    rw [he] at h
    simp [isAbsL] at h
  rw [isAbsL, List.head?_append_of_ne_nil a hne]
  exact h

theorem initialSlashes_pos (p : List Char) (h : isAbsL p = true) :
    initialSlashes p = 1 ∨ initialSlashes p = 2 := by
  rw [initialSlashes, if_pos h]
  split
  · exact Or.inr rfl
  · exact Or.inl rfl

theorem renderN_of_pos (s : Nat) (out : List (List Char)) (hs : 0 < s) :
    renderN s out = List.replicate s '/' ++ interSlash out := by
  rw [renderN, if_neg]
  intro he
  rcases List.append_eq_nil.mp he with ⟨h1, _⟩
  rw [List.replicate_eq_nil_iff] at h1
  omega

theorem normpathL_abs_shape (p : List Char) (h : isAbsL p = true) :
    NormedAbs (normpathL p) := by
  have hne : p ≠ [] := by
    intro he
    rw [he] at h
    simp [isAbsL] at h
  have hpos := initialSlashes_pos p h
  have hflag : (initialSlashes p != 0) = true := by
    rcases hpos with h2 | h2 <;> rw [h2] <;> rfl
  refine ⟨initialSlashes p, (normAcc (initialSlashes p != 0) [] (splitSlash p)).reverse,
    hpos, ?_, ?_⟩
  · intro c hc
    rw [List.mem_reverse] at hc
    rw [hflag] at hc
    exact normAcc_good (splitSlash p) [] (mem_splitSlash_no_slash p) (by simp) c hc
  · rw [normpathL, if_neg hne, renderN_of_pos]
    rcases hpos with h2 | h2 <;> omega

theorem isAbsL_normedAbs (q : List Char) (h : NormedAbs q) : isAbsL q = true := by
  obtain ⟨s, out, hs, _, rfl⟩ := h
  have hs1 : 0 < s := by rcases hs with h2 | h2 <;> omega
  apply isAbsL_append
  cases s with
  | zero => omega
  | succ n => rw [List.replicate_succ]; rfl

theorem goodComp_head_ne_slash {c : List Char} (h : GoodComp c) :
    ∃ a t, c = a :: t ∧ a ≠ '/' := by
  cases c with
  | nil => exact absurd rfl h.1
  | cons a t =>
    refine ⟨a, t, rfl, fun he => ?_⟩
    exact h.2.2.2 (he ▸ List.mem_cons_self a t)

theorem splitSlash_normed (s : Nat) (out : List (List Char)) (hs : s = 1 ∨ s = 2)
    (hg : ∀ c ∈ out, GoodComp c) :
    ∃ k, splitSlash (List.replicate s '/' ++ interSlash out) = List.replicate k [] ++ out := by
  have hout := splitSlash_interSlash out (fun c hc => (hg c hc).2.2.2)
  rcases hout with hout | hout
  · refine ⟨s, ?_⟩
    rcases hs with rfl | rfl
    · simp only [List.replicate_succ, List.replicate_zero, List.cons_append, List.nil_append]
      rw [splitSlash_slash, hout]
    · simp only [List.replicate_succ, List.replicate_zero, List.cons_append, List.nil_append]
      rw [splitSlash_slash, splitSlash_slash, hout]
  · subst hout
    refine ⟨s + 1, ?_⟩
    rcases hs with rfl | rfl <;> simp [splitSlash_slash, splitSlash, List.replicate_succ]

theorem interSlash_cons_head (a : Char) (t : List Char) (out2 : List (List Char)) :
    ∃ w, interSlash ((a :: t) :: out2) = a :: w := by
  cases out2 with
  | nil => exact ⟨t, rfl⟩
  | cons d out3 => exact ⟨t ++ '/' :: interSlash (d :: out3), rfl⟩

theorem initialSlashes_one_cons (a : Char) (w : List Char) (ha : a ≠ '/') :
    initialSlashes ('/' :: a :: w) = 1 := by
  rw [initialSlashes, if_pos (by rfl : isAbsL ('/' :: a :: w) = true), if_neg]
  intro hcon
  have h1 := hcon.1
  simp only [List.drop_succ_cons, List.drop_zero, isAbsL, List.head?_cons] at h1
  exact ha (by simpa using h1)

theorem initialSlashes_two_cons (a : Char) (w : List Char) (ha : a ≠ '/') :
    initialSlashes ('/' :: '/' :: a :: w) = 2 := by
  rw [initialSlashes, if_pos (by rfl : isAbsL ('/' :: '/' :: a :: w) = true), if_pos]
  refine ⟨by rfl, fun h2 => ?_⟩
  simp only [List.drop_succ_cons, List.drop_zero, isAbsL, List.head?_cons] at h2
  exact ha (by simpa using h2)

theorem initialSlashes_normed (s : Nat) (out : List (List Char)) (hs : s = 1 ∨ s = 2)
    (hg : ∀ c ∈ out, GoodComp c) :
    initialSlashes (List.replicate s '/' ++ interSlash out) = s := by
  cases out with
  | nil =>
    rcases hs with rfl | rfl <;> simp only [interSlash, List.append_nil] <;> decide
  | cons c out2 =>
    obtain ⟨a, t, rfl, ha⟩ := goodComp_head_ne_slash (hg c (List.mem_cons_self c out2))
    obtain ⟨w, hw⟩ := interSlash_cons_head a t out2
    rw [hw]
    rcases hs with rfl | rfl
    · simpa using initialSlashes_one_cons a w ha
    · simpa [List.replicate_succ] using initialSlashes_two_cons a w ha

theorem normpathL_normed_fixed (q : List Char) (h : NormedAbs q) : normpathL q = q := by
  obtain ⟨s, out, hs, hg, rfl⟩ := h
  have hne : List.replicate s '/' ++ interSlash out ≠ [] := by
    intro he
    rcases List.append_eq_nil.mp he with ⟨h1, _⟩
    rw [List.replicate_eq_nil_iff] at h1
    rcases hs with h2 | h2 <;> omega
  have hinit := initialSlashes_normed s out hs hg
  obtain ⟨k, hsplit⟩ := splitSlash_normed s out hs hg
  have hflag : (s != 0) = true := by rcases hs with rfl | rfl <;> rfl
  rw [normpathL, if_neg hne, hinit, hsplit, hflag, normAcc_skip_empty,
    normAcc_all_good out true [] hg, List.append_nil, List.reverse_reverse]
  exact (renderN_of_pos s out (by rcases hs with rfl | rfl <;> omega))

theorem expanduserL_abs (home : List Char) (db : List (List Char × List Char))
    (p : List Char) (h : isAbsL p = true) : expanduserL home db p = p := by
  rw [expanduserL, if_neg]
  intro he
  rw [isAbsL, he] at h
  simp at h

theorem abspathL_normed (cwd p : List Char) (h : isAbsL cwd = true) :
    NormedAbs (abspathL cwd p) := by
  rw [abspathL]
  split
  next habs => exact normpathL_abs_shape p habs
  next habs =>
    apply normpathL_abs_shape
    rw [joinL, if_neg (by simp [habs])]
    split
    next hc =>
      rcases hc with hc | hc
      · rw [hc, isAbsL] at h; simp at h
      · exact isAbsL_append cwd p h
    next => exact isAbsL_append cwd ('/' :: p) h

theorem expand_pathL_idem (cwd home : List Char) (db : List (List Char × List Char))
    (p : List Char) (h : isAbsL cwd = true) :
    expand_pathL cwd home db (expand_pathL cwd home db p) = expand_pathL cwd home db p := by
  have h1 : NormedAbs (expand_pathL cwd home db p) := abspathL_normed cwd _ h
  have h2 : isAbsL (expand_pathL cwd home db p) = true := isAbsL_normedAbs _ h1
  rw [expand_pathL, expanduserL_abs home db _ h2, abspathL, if_pos h2]
  exact normpathL_normed_fixed _ h1

/-- C5: expand_path is idempotent.  For every string p (and every value of
the user environment), expanding twice equals expanding once; the working
directory reported by the operating system is always absolute, which is the
sole hypothesis. -/
theorem string_data_ext (a b : String) (h : a.data = b.data) : a = b := by
  cases a
  cases b
  exact congrArg String.mk h

theorem expand_path_data (cwd home : String) (db : List (String × String)) (p : String) :
    (expand_path cwd home db p).data =
      expand_pathL cwd.data home.data (db.map (fun u => (u.1.data, u.2.data))) p.data := rfl

theorem expand_path_idempotent (cwd home : String) (db : List (String × String))
    (p : String) (h : isAbsL cwd.data = true) :
    expand_path cwd home db (expand_path cwd home db p) = expand_path cwd home db p := by
  apply string_data_ext
  rw [expand_path_data, expand_path_data]
  exact expand_pathL_idem _ _ _ _ h

/-- Witness for C5 at a concrete input, covering a tilde path that is
relative before expansion. -/
theorem expand_path_idempotent_witness :
    isAbsL ("/a" : String).data = true ∧
      expand_path "/a" "/home/u" [] (expand_path "/a" "/home/u" [] "~/x/../y") =
        expand_path "/a" "/home/u" [] "~/x/../y" :=
  ⟨by decide, expand_path_idempotent "/a" "/home/u" [] "~/x/../y" (by decide)⟩

example :
    rm ⟨"/", ["/"], []⟩ "/h" [] ["/missing"] false false = (none, ⟨"/", ["/"], []⟩) := by
  decide

example :
    rm ⟨"/", ["/", "/d"], []⟩ "/h" [] ["/d"] false false =
      (some Err.isADirectory, ⟨"/", ["/", "/d"], []⟩) := by
  decide

example :
    rm ⟨"/", ["/", "/d"], ["/d/x", "/f"]⟩ "/h" [] ["/d"] true false =
      (none, ⟨"/", ["/"], ["/f"]⟩) := by
  decide

example :
    rm ⟨"/", ["/"], ["/f"]⟩ "/h" [] ["/f"] false false = (none, ⟨"/", ["/"], []⟩) := by
  decide

example :
    cp ⟨"/", ["/"], []⟩ "/h" [] ["/nope1", "/nope2"] false =
      (some Err.indexError, ⟨"/", ["/"], []⟩) := by
  decide

example :
    cp_body ⟨"/", ["/", "/d"], []⟩ ["/d", "/new"] false =
      (none, ⟨"/", ["/", "/d", "/new"], []⟩) := by
  decide

example :
    cp ⟨"/", ["/", "/d"], []⟩ "/h" [] ["/d", "/new"] false =
      (none, ⟨"/", ["/", "/d"], []⟩) := by
  decide

example :
    mv ⟨"/", ["/", "/t"], ["/a", "/b"]⟩ ["/a", "/b", "/t"] =
      (none, ⟨"/", ["/", "/t"], ["/t/a", "/t/b"]⟩) := by
  decide

example :
    mv ⟨"/", ["/"], ["/a", "/b", "/t"]⟩ ["/a", "/b", "/t"] =
      (some Err.invalidTarget, ⟨"/", ["/"], ["/a", "/b", "/t"]⟩) := by
  decide

example :
    ls ⟨"/", ["/"], ["/a"]⟩ "/h" [] ["/a", "/a"] = LsResult.seq ["/a"] := by
  decide

example :
    ls ⟨"/", ["/"], ["/a", "/b"]⟩ "/h" [] [] = LsResult.seq ["a", "b"] := by
  decide

example :
    ls ⟨"/", ["/"], ["/a", "/b"]⟩ "/h" [] ["/a", "/b"] =
      LsResult.dict [("/a", ["/a"]), ("/b", ["/b"])] := by
  decide

example :
    (current_directory_run ⟨"/a", ["/", "/a", "/b"], []⟩ "/h" [] "/b"
      (fun fs => (none, fs))).2.cwd = "/a" := by
  decide

example :
    (current_directory_run ⟨"/a", ["/", "/a", "/b"], []⟩ "/h" [] "/b"
      (fun fs => (some Err.fileNotFound, fs))).2.cwd = "/b" := by
  decide

/-!
Claim C3: the argument-count wrapper.
-/

theorem require_args_check_none_iff (mn mx : Option Nat) (n : Nat) :
    require_args_check mn mx n = none ↔
      ((∀ m, mn = some m → m ≤ n) ∧ (∀ m, mx = some m → n ≤ m)) := by
  rcases mn with _ | m1 <;> rcases mx with _ | m2 <;>
      simp only [require_args_check, Option.any, Bool.false_eq_true, if_false,
        decide_eq_true_eq] <;>
    (try split_ifs) <;> simp_all

theorem require_args_check_val (mn mx : Option Nat) (n : Nat) :
    require_args_check mn mx n = none ∨ require_args_check mn mx n = some Err.arityError := by
  rw [require_args_check]
  split_ifs <;> simp

/-- C3: the wrapper accepts, forwarding both the positional and the keyword
arguments verbatim to the wrapped function and returning its result
unmodified, exactly when the positional count respects each configured
bound; otherwise it rejects with the arity error, and the rejection is
computed without the wrapped function (the result is the same for every
wrapped function). -/
theorem require_args_accepts_iff {α β κ : Type} (mn mx : Option Nat)
    (f : List α → κ → β) (args : List α) (kw : κ) :
    (require_args_wrap mn mx f args kw = .ok (f args kw) ↔
      ((∀ m, mn = some m → m ≤ args.length) ∧ (∀ m, mx = some m → args.length ≤ m)))
    ∧ (¬ ((∀ m, mn = some m → m ≤ args.length) ∧ (∀ m, mx = some m → args.length ≤ m)) →
        require_args_wrap mn mx f args kw = .error Err.arityError)
    ∧ (∀ g : List α → κ → β, require_args_check mn mx args.length ≠ none →
        require_args_wrap mn mx f args kw = require_args_wrap mn mx g args kw) := by
  refine ⟨?_, ?_, ?_⟩
  · constructor
    · intro hok
      rcases require_args_check_val mn mx args.length with hc | hc
      · exact (require_args_check_none_iff mn mx args.length).mp hc
      · rw [require_args_wrap, hc] at hok
        exact Except.noConfusion hok
    · intro hb
      rw [require_args_wrap, (require_args_check_none_iff mn mx args.length).mpr hb]
  · intro hb
    rcases require_args_check_val mn mx args.length with hc | hc
    · exact absurd ((require_args_check_none_iff mn mx args.length).mp hc) hb
    · rw [require_args_wrap, hc]
  · intro g hne
    rcases require_args_check_val mn mx args.length with hc | hc
    · exact absurd hc hne
    · rw [require_args_wrap, require_args_wrap, hc]

/-- Witness for C3: a call inside the bounds is forwarded and returns the
result of the wrapped function; a call below the minimum is rejected. -/
theorem require_args_accepts_iff_witness :
    require_args_wrap (some 1) (some 3) (fun (l : List Nat) (_ : Unit) => l.length) [5, 6] ()
        = .ok 2
    ∧ require_args_wrap (some 1) (some 3) (fun (l : List Nat) (_ : Unit) => l.length) [] ()
        = .error Err.arityError :=
  ⟨(require_args_accepts_iff (some 1) (some 3) _ [5, 6] ()).1.mpr
      ⟨fun m hm => by cases hm; decide, fun m hm => by cases hm; decide⟩,
    (require_args_accepts_iff (some 1) (some 3) _ [] ()).2.1
      (fun hb => absurd (hb.1 1 rfl) (by decide))⟩

/-!
Claim C4: composition order of the two wrappers in rm and cp.
-/

theorem unlink_err_shape (fs : FS) (p : String) :
    (fs.unlink p).1 = none ∨ (fs.unlink p).1 = some Err.isADirectory ∨
      (fs.unlink p).1 = some Err.fileNotFound := by
  rw [FS.unlink]
  split_ifs <;> simp

theorem copy_err_shape (fs : FS) (s d : String) :
    (fs.copy s d).1 = none ∨ (fs.copy s d).1 = some Err.isADirectory ∨
      (fs.copy s d).1 = some Err.fileNotFound := by
  simp only [FS.copy]
  split_ifs <;> simp

theorem isdir_exists (fs : FS) (a : String) (h : fs.isdir a = true) :
    fs.exists_path a = true := by
  rw [FS.exists_path, h]
  rfl

/-- Branch equations of the rm loop. -/
theorem rm_body_skip (fs : FS) (a : String) (rest : List String) (rec : Bool)
    (h : fs.exists_path a = false) :
    rm_body fs (a :: rest) rec true = rm_body fs rest rec true := by
  rw [rm_body, if_pos ⟨by simp [h], rfl⟩]

theorem rm_body_dir_noignore (fs : FS) (a : String) (rest : List String)
    (hd : fs.isdir a = true) :
    rm_body fs (a :: rest) false false = (some Err.isADirectory, fs) := by
  rw [rm_body, if_neg (by simp [isdir_exists fs a hd]), if_pos hd,
    if_pos (by simp : ¬ (false : Bool) = true), if_neg (by simp : ¬ (false : Bool) = true)]

theorem rm_body_dir_ignore (fs : FS) (a : String) (rest : List String)
    (hd : fs.isdir a = true) :
    rm_body fs (a :: rest) false true = rm_body fs rest false true := by
  rw [rm_body, if_neg (by simp [isdir_exists fs a hd]), if_pos hd,
    if_pos (by simp : ¬ (false : Bool) = true), if_pos rfl]

theorem rm_body_dir_rec (fs : FS) (a : String) (rest : List String) (ign : Bool)
    (hd : fs.isdir a = true) :
    rm_body fs (a :: rest) true ign = rm_body (fs.rmtree a) rest true ign := by
  rw [rm_body, if_neg (by simp [isdir_exists fs a hd]), if_pos hd, if_neg (by simp)]

theorem rm_body_unlink (fs : FS) (a : String) (rest : List String) (rec ign : Bool)
    (hskip : ¬ (¬ fs.exists_path a = true ∧ ign = true)) (hnd : fs.isdir a = false) :
    rm_body fs (a :: rest) rec ign =
      match fs.unlink a with
      | (some e, fs2) => (some e, fs2)
      | (none, fs2) => rm_body fs2 rest rec ign := by
  rw [rm_body, if_neg hskip, if_neg (by simp [hnd])]

theorem rm_body_no_arity (args : List String) :
    ∀ fs rec ign, (rm_body fs args rec ign).1 ≠ some Err.arityError := by
  induction args with
  | nil => intro fs rec ign; simp [rm_body]
  | cons a rest ih =>
    intro fs rec ign
    by_cases h1 : (¬ fs.exists_path a = true ∧ ign = true)
    · rw [rm_body, if_pos h1]
      exact ih fs rec ign
    · by_cases h2 : fs.isdir a = true
      · cases rec with
        | true => rw [rm_body_dir_rec fs a rest ign h2]; exact ih (fs.rmtree a) true ign
        | false =>
          cases ign with
          | true => rw [rm_body_dir_ignore fs a rest h2]; exact ih fs false true
          | false => rw [rm_body_dir_noignore fs a rest h2]; simp
      · rw [rm_body_unlink fs a rest rec ign h1 (by simp_all)]
        rcases hu : fs.unlink a with ⟨oe, fs2⟩
        cases oe with
        | none => simpa using ih fs2 rec ign
        | some e =>
          have hsh := unlink_err_shape fs a
          rw [hu] at hsh
          rcases hsh with h | h | h <;> simp_all

theorem cp_into_no_arity (sources : List String) :
    ∀ fs t rec, (cp_into fs sources t rec).1 ≠ some Err.arityError := by
  induction sources with
  | nil => intro fs t rec; simp [cp_into]
  | cons s rest ih =>
    intro fs t rec
    by_cases hd : fs.isdir s = true
    · rw [cp_into, if_pos hd]
      cases rec with
      | true => rw [if_pos rfl]; exact ih _ t true
      | false => rw [if_neg (by simp)]; exact ih fs t false
    · rw [cp_into, if_neg (by simp [hd])]
      rcases hc : fs.copy s t with ⟨oe, fs2⟩
      cases oe with
      | none => simpa using ih fs2 t rec
      | some e =>
        have hsh := copy_err_shape fs s t
        rw [hc] at hsh
        rcases hsh with h | h | h <;> simp_all

theorem cp_body_no_arity (fs : FS) (args : List String) (rec : Bool) :
    (cp_body fs args rec).1 ≠ some Err.arityError := by
  rcases hl : args.getLast? with _ | t
  · rw [cp_body, hl]
    simp
  · rw [cp_body, hl]
    dsimp only
    by_cases h1 : (¬ fs.isdir t = true ∧ 1 < args.dropLast.length)
    · rw [if_pos h1]; simp
    · rw [if_neg h1]
      by_cases h2 : fs.isdir t = true
      · rw [if_pos h2]; exact cp_into_no_arity _ fs t rec
      · rw [if_neg h2]
        rcases hh : args.dropLast.head? with _ | s
        · simp
        · dsimp only
          by_cases h3 : (fs.isdir s = true ∧ fs.exists_path t = true)
          · rw [if_pos h3]; simp
          · rw [if_neg h3]
            by_cases h4 : fs.isdir s = true
            · rw [if_pos h4]; simp
            · rw [if_neg h4]
              have hsh := copy_err_shape fs s t
              rcases hsh with h | h | h <;> simp_all

/-- Reduction of rm to its body once the raw-argument count passes. -/
theorem rm_run (fs : FS) (home : String) (db : List (String × String))
    (args : List String) (rec ign : Bool) (h : 1 ≤ args.length) :
    rm fs home db args rec ign =
      rm_body fs (expand_paths_apply fs home db true args) rec ign := by
  rw [rm]
  have hc : require_args_check (some 1) none args.length = none :=
    (require_args_check_none_iff (some 1) none args.length).mpr
      ⟨fun m hm => by cases hm; exact h, fun m hm => Option.noConfusion hm⟩
  rw [hc]

/-- Reduction of cp to its body once the raw-argument count passes. -/
theorem cp_run (fs : FS) (home : String) (db : List (String × String))
    (args : List String) (rec : Bool) (h : 2 ≤ args.length) :
    cp fs home db args rec = cp_body fs (expand_paths_apply fs home db true args) rec := by
  rw [cp]
  have hc : require_args_check (some 2) none args.length = none :=
    (require_args_check_none_iff (some 2) none args.length).mpr
      ⟨fun m hm => by cases hm; exact h, fun m hm => Option.noConfusion hm⟩
  rw [hc]

/-- Reduction of mv to its body once the raw-argument count passes. -/
theorem mv_run (fs : FS) (args : List String) (h : 2 ≤ args.length) :
    mv fs args = mv_body fs args := by
  rw [mv]
  have hc : require_args_check (some 2) none args.length = none :=
    (require_args_check_none_iff (some 2) none args.length).mpr
      ⟨fun m hm => by cases hm; exact h, fun m hm => Option.noConfusion hm⟩
  rw [hc]

/-- C4: in rm and cp the arity check runs on the raw pre-expansion
arguments, strictly before path expansion: too few raw arguments yields
the arity error with the filesystem unread and untouched, and once the raw
count passes no arity error can arise however far expansion shrinks the
list; glob expansion of a pattern matching nothing contributes the empty
list rather than raising, and an rm call on one such pattern still executes
and returns successfully. -/
theorem arity_before_expansion (fs : FS) (home : String) (db : List (String × String))
    (args : List String) (rec ign : Bool) :
    (args.length < 1 → rm fs home db args rec ign = (some Err.arityError, fs))
    ∧ (args.length < 2 → cp fs home db args rec = (some Err.arityError, fs))
    ∧ (1 ≤ args.length → (rm fs home db args rec ign).1 ≠ some Err.arityError)
    ∧ (2 ≤ args.length → (cp fs home db args rec).1 ≠ some Err.arityError)
    ∧ (∀ p, FS.hasMagic p = false → fs.exists_path p = false → fs.glob p = [])
    ∧ (∀ p, args = [p] → fs.glob (expand_path fs.cwd home db p) = [] →
        rm fs home db args rec ign = (none, fs)) := by
  refine ⟨?_, ?_, ?_, ?_, ?_, ?_⟩
  · intro h
    have hc : require_args_check (some 1) none args.length = some Err.arityError := by
      rcases require_args_check_val (some 1) none args.length with hc | hc
      · have := ((require_args_check_none_iff (some 1) none args.length).mp hc).1 1 rfl
        omega
      · exact hc
    rw [rm, hc]
  · intro h
    have hc : require_args_check (some 2) none args.length = some Err.arityError := by
      rcases require_args_check_val (some 2) none args.length with hc | hc
      · have := ((require_args_check_none_iff (some 2) none args.length).mp hc).1 2 rfl
        omega
      · exact hc
    rw [cp, hc]
  · intro h
    rw [rm_run fs home db args rec ign h]
    exact rm_body_no_arity _ fs rec ign
  · intro h
    rw [cp_run fs home db args rec h]
    exact cp_body_no_arity fs _ rec
  · intro p hm he
    rw [FS.glob, if_neg (by simp [hm]), if_neg (by simp [he])]
  · intro p hp hg
    subst hp
    rw [rm_run fs home db [p] rec ign (by simp)]
    have hexp : expand_paths_apply fs home db true [p] = [] := by
      simp [expand_paths_apply, hg]
    rw [hexp, rm_body]

/-- Witness for C4 at concrete inputs: a raw empty call to rm and a raw
one-argument call to cp are arity errors; a missing literal path globs to
nothing; and rm of one missing literal still executes and succeeds. -/
theorem arity_before_expansion_witness :
    rm ⟨"/", ["/"], []⟩ "/h" [] [] false false = (some Err.arityError, ⟨"/", ["/"], []⟩)
    ∧ cp ⟨"/", ["/"], []⟩ "/h" [] ["/x"] false = (some Err.arityError, ⟨"/", ["/"], []⟩)
    ∧ FS.glob ⟨"/", ["/"], []⟩ "/x" = []
    ∧ rm ⟨"/", ["/"], []⟩ "/h" [] ["/x"] false false = (none, ⟨"/", ["/"], []⟩) :=
  ⟨(arity_before_expansion ⟨"/", ["/"], []⟩ "/h" [] [] false false).1 (by decide),
    (arity_before_expansion ⟨"/", ["/"], []⟩ "/h" [] ["/x"] false false).2.1 (by decide),
    (arity_before_expansion ⟨"/", ["/"], []⟩ "/h" [] [] false false).2.2.2.2.1 "/x"
      (by decide) (by decide),
    (arity_before_expansion ⟨"/", ["/"], []⟩ "/h" [] ["/x"] false false).2.2.2.2.2 "/x"
      rfl (by decide)⟩

/-!
Claim C6: mv.
-/

/-- C6: with at least two arguments, mv fails with the invalid-target error
before moving anything when the destination is not an existing directory
and several sources are given; with a directory destination the sources are
moved one at a time in argument order, each later move starting from the
state the earlier ones produced and an individual failure returning that
intermediate state unchanged (no rollback); with a non-directory
destination and a single source, the source is moved to exactly that
path. -/
theorem mv_spec (fs : FS) (srcs : List String) (t : String) :
    (fs.isdir t = false → 1 < srcs.length → mv fs (srcs ++ [t]) = (some Err.invalidTarget, fs))
    ∧ (∀ s rest fs2, srcs = s :: rest → fs.isdir t = true → fs.move s t = (none, fs2) →
        mv fs (srcs ++ [t]) = mv_into fs2 rest t)
    ∧ (∀ s rest e fs2, srcs = s :: rest → fs.isdir t = true → fs.move s t = (some e, fs2) →
        mv fs (srcs ++ [t]) = (some e, fs2))
    ∧ (∀ s, srcs = [s] → fs.isdir t = false → mv fs (srcs ++ [t]) = fs.move s t) := by
  refine ⟨?_, ?_, ?_, ?_⟩
  · intro hnd hlen
    have hne : srcs ≠ [] := by intro he; rw [he] at hlen; simp at hlen
    rw [mv_run fs (srcs ++ [t]) (by
      rcases srcs with _ | ⟨a, rest⟩
      · exact absurd rfl hne
      · simp)]
    rw [mv_body, List.getLast?_concat]
    dsimp only
    rw [List.dropLast_concat, if_pos ⟨by simp [hnd], hlen⟩]
  · intro s rest fs2 hsrcs hd hmv
    subst hsrcs
    rw [mv_run fs ((s :: rest) ++ [t]) (by simp)]
    rw [mv_body, List.getLast?_concat]
    dsimp only
    rw [List.dropLast_concat, if_neg (by simp [hd]), if_pos hd, mv_into, hmv]
  · intro s rest e fs2 hsrcs hd hmv
    subst hsrcs
    rw [mv_run fs ((s :: rest) ++ [t]) (by simp)]
    rw [mv_body, List.getLast?_concat]
    dsimp only
    rw [List.dropLast_concat, if_neg (by simp [hd]), if_pos hd, mv_into, hmv]
  · intro s hsrcs hnd
    subst hsrcs
    rw [mv_run fs ([s] ++ [t]) (by simp)]
    rw [mv_body, List.getLast?_concat]
    dsimp only
    rw [List.dropLast_concat, if_neg (by simp), if_neg (by simp [hnd])]
    rfl

/-- Witness for C6: a two-source move into an existing directory performs
both moves in order; a two-source move onto a non-directory fails with the
invalid-target error and no change; a one-source move onto a fresh path
renames it there. -/
theorem mv_spec_witness :
    mv ⟨"/", ["/", "/t"], ["/a", "/b"]⟩ ["/a", "/b", "/t"] =
        (none, ⟨"/", ["/", "/t"], ["/t/a", "/t/b"]⟩)
    ∧ mv ⟨"/", ["/"], ["/a", "/b", "/t"]⟩ ["/a", "/b", "/t"] =
        (some Err.invalidTarget, ⟨"/", ["/"], ["/a", "/b", "/t"]⟩)
    ∧ mv ⟨"/", ["/"], ["/a"]⟩ ["/a", "/t"] =
        (none, ⟨"/", ["/"], ["/t"]⟩) := by
  refine ⟨?_, ?_, ?_⟩
  · exact ((mv_spec ⟨"/", ["/", "/t"], ["/a", "/b"]⟩ ["/a", "/b"] "/t").2.1 "/a" ["/b"]
      ⟨"/", ["/", "/t"], ["/t/a", "/b"]⟩ rfl (by decide) (by decide)).trans (by decide)
  · exact (mv_spec ⟨"/", ["/"], ["/a", "/b", "/t"]⟩ ["/a", "/b"] "/t").1 (by decide) (by decide)
  · exact ((mv_spec ⟨"/", ["/"], ["/a"]⟩ ["/a"] "/t").2.2.2 "/a" rfl (by decide)).trans
      (by decide)


/-!
Claim C7: cp with a directory source and a non-directory destination.
-/

/-- C7: on a glob-resolved argument list of one directory source and a
destination that is not an existing directory, cp fails with the
destination-exists error when the destination path exists, and otherwise
copies the source tree recursively to the destination, whatever the value
of the recursive flag (the flag is quantified and absent from the
result). -/
theorem cp_dir_source_spec (fs : FS) (s t : String) (rec : Bool)
    (hnd : fs.isdir t = false) (hs : fs.isdir s = true) :
    (fs.exists_path t = true → cp_body fs [s, t] rec = (some Err.destinationExists, fs))
    ∧ (fs.exists_path t = false → cp_body fs [s, t] rec = (none, fs.copytree s t)) := by
  have e1 : ([s, t] : List String) = [s] ++ [t] := rfl
  constructor
  · intro hex
    rw [e1, cp_body, List.getLast?_concat]
    dsimp only
    rw [List.dropLast_concat, if_neg (by simp), if_neg (by simp [hnd])]
    dsimp only [List.head?]
    rw [if_pos ⟨hs, hex⟩]
  · intro hex
    rw [e1, cp_body, List.getLast?_concat]
    dsimp only
    rw [List.dropLast_concat, if_neg (by simp), if_neg (by simp [hnd])]
    dsimp only [List.head?]
    rw [if_neg (by simp [hex]), if_pos hs]

/-- Witness for C7: copying a directory over an existing file fails with
the destination-exists error; copying it to a fresh path copies the whole
tree there even with the recursive flag off. -/
theorem cp_dir_source_spec_witness :
    cp_body ⟨"/", ["/", "/d"], ["/d/x", "/t"]⟩ ["/d", "/t"] false =
        (some Err.destinationExists, ⟨"/", ["/", "/d"], ["/d/x", "/t"]⟩)
    ∧ cp_body ⟨"/", ["/", "/d"], ["/d/x"]⟩ ["/d", "/new"] false =
        (none, ⟨"/", ["/", "/d", "/new"], ["/d/x", "/new/x"]⟩) :=
  ⟨(cp_dir_source_spec ⟨"/", ["/", "/d"], ["/d/x", "/t"]⟩ "/d" "/t" false
      (by decide) (by decide)).1 (by decide),
    ((cp_dir_source_spec ⟨"/", ["/", "/d"], ["/d/x"]⟩ "/d" "/new" false
      (by decide) (by decide)).2 (by decide)).trans (by decide)⟩

/-!
Claim C8: rm on an existing directory.
-/

/-- C8: for an existing directory, rm without recursive and without
ignore_errors fails with the is-a-directory error immediately, removing
nothing and leaving the remaining arguments unprocessed; with
ignore_errors set the condition is only reported and the loop continues
over the remaining arguments with the filesystem unchanged; with recursive
set the whole subtree of the directory is removed (no path under it
survives) and the loop continues from the pruned state. -/
theorem rm_directory_spec (fs : FS) (d : String) (rest : List String) (ign : Bool)
    (hd : fs.isdir d = true) :
    (rm_body fs (d :: rest) false false = (some Err.isADirectory, fs))
    ∧ (rm_body fs (d :: rest) false true = rm_body fs rest false true)
    ∧ (rm_body fs (d :: rest) true ign = rm_body (fs.rmtree d) rest true ign)
    ∧ (∀ q, underS (fs.resolve d) q = true →
        (fs.rmtree d).dirs.contains q = false ∧ (fs.rmtree d).files.contains q = false) := by
  refine ⟨rm_body_dir_noignore fs d rest hd, rm_body_dir_ignore fs d rest hd,
    rm_body_dir_rec fs d rest ign hd, ?_⟩
  intro q hq
  constructor
  · simp [FS.rmtree, List.mem_filter, hq]
  · simp [FS.rmtree, List.mem_filter, hq]

/-- Witness for C8: a directory with content is refused without recursive,
skipped with ignore_errors, and removed with its content with recursive;
the removed root no longer exists afterwards. -/
theorem rm_directory_spec_witness :
    rm_body ⟨"/", ["/", "/d"], ["/d/x"]⟩ ["/d"] false false =
        (some Err.isADirectory, ⟨"/", ["/", "/d"], ["/d/x"]⟩)
    ∧ rm_body ⟨"/", ["/", "/d"], ["/d/x"]⟩ ["/d"] false true = (none, ⟨"/", ["/", "/d"], ["/d/x"]⟩)
    ∧ rm_body ⟨"/", ["/", "/d"], ["/d/x"]⟩ ["/d"] true false = (none, ⟨"/", ["/"], []⟩)
    ∧ ((⟨"/", ["/", "/d"], ["/d/x"]⟩ : FS).rmtree "/d").dirs.contains "/d" = false :=
  ⟨(rm_directory_spec ⟨"/", ["/", "/d"], ["/d/x"]⟩ "/d" [] false (by decide)).1,
    ((rm_directory_spec ⟨"/", ["/", "/d"], ["/d/x"]⟩ "/d" [] false (by decide)).2.1).trans
      (by decide),
    ((rm_directory_spec ⟨"/", ["/", "/d"], ["/d/x"]⟩ "/d" [] false (by decide)).2.2.1).trans
      (by decide),
    ((rm_directory_spec ⟨"/", ["/", "/d"], ["/d/x"]⟩ "/d" [] false (by decide)).2.2.2 "/d"
      (by decide)).1⟩


/-!
Claim C1: the current_directory context manager.
-/

/-- C1 evaluated at its failing input: inside the scope the working
directory equals the expansion of the argument (a body that would raise on
any other working directory completes cleanly), and a normally returning
body gets the old working directory restored; but when the body raises,
the working directory stays at the new directory, because the restoring
chdir after the yield is skipped (the yield is not wrapped in
try/finally). -/
theorem current_directory_raise_divergence :
    (current_directory_run ⟨"/a", ["/", "/a", "/b"], []⟩ "/h" [] "/b"
        (fun fs => (if fs.cwd = expand_path "/a" "/h" [] "/b" then none
          else some Err.indexError, fs))).1 = none
    ∧ (current_directory_run ⟨"/a", ["/", "/a", "/b"], []⟩ "/h" [] "/b"
        (fun fs => (none, fs))).2.cwd = "/a"
    ∧ (current_directory_run ⟨"/a", ["/", "/a", "/b"], []⟩ "/h" [] "/b"
        (fun fs => (some Err.fileNotFound, fs))).2.cwd = "/b" := by
  decide

/-!
Claim C2: rm of a missing path.
-/

/-- Counterexample to C2 as stated: rm on a missing literal path with
ignore_errors false returns without error and with the filesystem
untouched, instead of failing. -/
theorem rm_missing_counterexample :
    rm ⟨"/", ["/"], []⟩ "/h" [] ["/missing"] false false = (none, ⟨"/", ["/"], []⟩) := by
  decide

/-- C2 amended: for a wildcard-free path whose expansion does not exist,
rm returns without error and performs no filesystem mutation for BOTH
values of ignore_errors, because glob expansion drops the non-matching
literal before the body runs. -/
theorem rm_missing_spec (fs : FS) (home : String) (db : List (String × String))
    (p : String) (rec ign : Bool)
    (hm : FS.hasMagic (expand_path fs.cwd home db p) = false)
    (he : fs.exists_path (expand_path fs.cwd home db p) = false) :
    rm fs home db [p] rec ign = (none, fs) := by
  rw [rm_run fs home db [p] rec ign (by simp)]
  have hg : fs.glob (expand_path fs.cwd home db p) = [] := by
    rw [FS.glob, if_neg (by simp [hm]), if_neg (by simp [he])]
  have hexp : expand_paths_apply fs home db true [p] = [] := by
    simp [expand_paths_apply, hg]
  rw [hexp, rm_body]

/-- Witness for C2 amended, here with ignore_errors true. -/
theorem rm_missing_spec_witness :
    FS.hasMagic (expand_path "/" "/h" [] "/gone") = false
    ∧ FS.exists_path ⟨"/", ["/"], ["/f"]⟩ (expand_path "/" "/h" [] "/gone") = false
    ∧ rm ⟨"/", ["/"], ["/f"]⟩ "/h" [] ["/gone"] false true = (none, ⟨"/", ["/"], ["/f"]⟩) :=
  ⟨by decide, by decide,
    rm_missing_spec ⟨"/", ["/"], ["/f"]⟩ "/h" [] "/gone" false true (by decide) (by decide)⟩

/-!
Claim C10: the reachable index error of cp.
-/

/-- C10: a raw argument list of two wildcard-free missing paths passes the
arity check, glob expansion resolves every argument to zero matches leaving
the body an empty positional list, and the access to the last element is
out of range: cp raises the index error. -/
theorem cp_empty_expansion_index_error :
    expand_paths_apply ⟨"/", ["/"], []⟩ "/h" [] true ["/nope1", "/nope2"] = []
    ∧ cp ⟨"/", ["/"], []⟩ "/h" [] ["/nope1", "/nope2"] false =
        (some Err.indexError, ⟨"/", ["/"], []⟩) := by
  decide

/-!
Claim C9: the return-shape collapsing of ls.
-/

/-- Counterexample to C9 as stated: two positional arguments naming the
same path are supplied, yet ls returns the bare sequence, not a one-entry
mapping, because the dictionary has a single key. -/
theorem ls_collapse_counterexample :
    ls ⟨"/", ["/"], ["/a"]⟩ "/h" [] ["/a", "/a"] = LsResult.seq ["/a"] := by
  decide

theorem dinsert_keys (res : List (String × List String)) (k : String) (v : List String) :
    (dinsert res k v).map Prod.fst =
      if (res.map Prod.fst).any (fun x => x == k) then res.map Prod.fst
      else res.map Prod.fst ++ [k] := by
  have hcond : (res.map Prod.fst).any (fun x => x == k) = res.any (fun kv => kv.1 == k) := by
    induction res with
    | nil => rfl
    | cons kv rest ih => simp only [List.map_cons, List.any_cons, ih]
  rw [dinsert, hcond]
  split_ifs with h
  · rw [List.map_map]
    apply List.map_congr_left
    intro kv _
    simp only [Function.comp]
    split_ifs with he
    · exact (eq_of_beq he).symm
    · rfl
  · rw [List.map_append]
    rfl

theorem ls_results_keys (fs : FS) (args : List String) :
    (ls_results fs args).map Prod.fst = dedupKeys args := by
  suffices h : ∀ res : List (String × List String),
      ((args.foldl (fun r a => dinsert r a (ls_entry fs a)) res).map Prod.fst)
        = args.foldl (fun ks a => if ks.any (fun x => x == a) then ks else ks ++ [a])
            (res.map Prod.fst) by
    simpa [ls_results, dedupKeys] using h []
  induction args with
  | nil => intro res; rfl
  | cons a rest ih =>
    intro res
    rw [List.foldl_cons, List.foldl_cons, ih, dinsert_keys]

/-- C9 amended: ls returns the bare sequence exactly when the expanded
arguments (with the current-directory default for an empty list) contain
exactly one distinct path, and the mapping otherwise; the number of
arguments supplied does not by itself decide the shape, the number of
distinct keys does.  The zero-argument call lists the current directory as
a plain sequence. -/
theorem ls_collapse_spec (fs : FS) (home : String) (db : List (String × String))
    (args : List String) :
    ((∃ v, ls fs home db args = LsResult.seq v) ↔
      (dedupKeys (lsArgs fs home db args)).length = 1)
    ∧ (fs.isdir "." = true → ls fs home db [] = LsResult.seq (fs.listdir ".")) := by
  constructor
  · rw [ls, ls_body]
    have hargs : (if expand_paths_apply fs home db false args = [] then ["."]
        else expand_paths_apply fs home db false args) = lsArgs fs home db args := rfl
    rw [hargs]
    have hlen : (ls_results fs (lsArgs fs home db args)).length
        = (dedupKeys (lsArgs fs home db args)).length := by
      rw [← ls_results_keys fs (lsArgs fs home db args), List.length_map]
    rcases hres : ls_results fs (lsArgs fs home db args) with _ | ⟨kv, rest2⟩
    · rw [hres] at hlen
      dsimp only
      constructor
      · rintro ⟨v, hv⟩
        exact LsResult.noConfusion hv
      · intro hn
        rw [← hlen] at hn
        simp at hn
    · rcases rest2 with _ | ⟨kv2, rest3⟩
      · rw [hres] at hlen
        dsimp only
        constructor
        · intro _
          rw [← hlen]
          rfl
        · intro _
          exact ⟨kv.2, rfl⟩
      · rw [hres] at hlen
        dsimp only
        constructor
        · rintro ⟨v, hv⟩
          exact LsResult.noConfusion hv
        · intro hn
          rw [← hlen] at hn
          simp at hn
  · intro hdot
    rw [ls]
    have h0 : expand_paths_apply fs home db false [] = [] := rfl
    rw [h0, ls_body, if_pos rfl]
    have h1 : ls_results fs ["."] = [(".", ls_entry fs ".")] := by
      simp [ls_results, dinsert]
    rw [h1]
    dsimp only
    rw [ls_entry, if_pos hdot]

/-- Witness for C9 amended: the zero-argument call on a filesystem whose
working directory exists returns the plain entry sequence. -/
theorem ls_collapse_spec_witness :
    FS.isdir ⟨"/", ["/"], ["/a", "/b"]⟩ "." = true
    ∧ ls ⟨"/", ["/"], ["/a", "/b"]⟩ "/h" [] [] =
        LsResult.seq (FS.listdir ⟨"/", ["/"], ["/a", "/b"]⟩ ".") :=
  ⟨by decide, (ls_collapse_spec ⟨"/", ["/"], ["/a", "/b"]⟩ "/h" [] []).2 (by decide)⟩

end Bettershutils
